import Mathlib

/-! Verification of the `webapp` OAuth Web Application flow.

Shallow embedding of `src/webapp/webapp_flow.go` (package `webapp` of the
repository), together with the parts of Go's `net/url` standard library that
the code relies on (`url.Values.Encode`, `url.QueryEscape`, `url.ParseQuery`,
a subset of `url.Parse`).

Go strings are byte strings; we model them as `List Nat`, where a byte is a
`Nat` that is `< 256` for well-formed strings (`WfBytes`).  Effects are made
explicit: the blocking wait for the callback becomes an input value, and the
single HTTP POST that `AccessTokenWithParams` may issue becomes the success
value of its result (so `.error _` means no POST was issued and `.ok req`
means exactly one POST with the given request was issued; the parsing of the
POST response lives in the external `github.com/cli/oauth/api` module and is
outside the model boundary).
-/

namespace Webapp

/-- Go strings are sequences of bytes. -/
abbrev ByteStr := List Nat

/-- Go `strings.Contains` with a one-byte needle. -/
def containsByte (b : Nat) : ByteStr → Bool
  | [] => false
  | c :: rest => c = b || containsByte b rest

/-- Byte string of an ASCII Lean string literal (used to write Go string
literals). -/
def bs (s : String) : ByteStr := s.data.map Char.toNat

/-- A well-formed Go string: every byte is `< 256`. -/
def WfBytes (s : ByteStr) : Prop := ∀ b ∈ s, b < 256

instance : DecidablePred WfBytes := fun s =>
  inferInstanceAs (Decidable (∀ b ∈ s, b < 256))

/-! Go `net/url` query escaping (`url.QueryEscape` / `url.QueryUnescape`). -/

/-- Bytes Go never escapes in a query component: `A-Z a-z 0-9 - _ . ~`. -/
def isUnreservedByte (b : Nat) : Bool :=
  (65 ≤ b && b ≤ 90) || (97 ≤ b && b ≤ 122) || (48 ≤ b && b ≤ 57) ||
    b = 45 || b = 95 || b = 46 || b = 126

/-- Upper-case hex digit byte for a nibble, as in Go's `"0123456789ABCDEF"`. -/
def upperHexDigit (n : Nat) : Nat := if n < 10 then 48 + n else 55 + n

/-- Go `url.QueryEscape`: keep unreserved bytes, turn space into `+`, and
percent-encode everything else as `%XX` with upper-case hex. -/
def queryEscape : ByteStr → ByteStr
  | [] => []
  | b :: rest =>
    (if isUnreservedByte b then [b]
     else if b = 32 then [43]
     else [37, upperHexDigit (b / 16), upperHexDigit (b % 16)]) ++ queryEscape rest

/-- Value of a hex digit byte (as accepted by Go's `unhex`). -/
def fromHexDigit (b : Nat) : Option Nat :=
  if 48 ≤ b && b ≤ 57 then some (b - 48)
  else if 65 ≤ b && b ≤ 70 then some (b - 55)
  else if 97 ≤ b && b ≤ 102 then some (b - 87)
  else none

/-- Go `url.QueryUnescape`: `%XX` decodes to a byte (error on malformed
escapes), `+` decodes to space, any other byte is kept. -/
def queryUnescape : ByteStr → Option ByteStr
  | [] => some []
  | b :: rest =>
    if b = 37 then
      match rest with
      | h1 :: h2 :: rest1 => do
        let d1 ← fromHexDigit h1
        let d2 ← fromHexDigit h2
        let tail ← queryUnescape rest1
        some ((16 * d1 + d2) :: tail)
      | _ => none
    else if b = 43 then (queryUnescape rest).map (fun t => 32 :: t)
    else (queryUnescape rest).map (fun t => b :: t)

example : queryEscape (bs "http://x y") = bs "http%3A%2F%2Fx+y" := by decide

example : queryUnescape (queryEscape (bs "http://x y")) = some (bs "http://x y") := by
  decide

/-! Go `url.Values`.

`url.Values` is `map[string][]string`; a Go map has at most one entry per key.
We model it as an association list whose operations preserve key uniqueness:
`store` is map assignment `m[k] = vs`, `add` is `m[k] = append(m[k], v)`,
`getList` is map indexing `m[k]` (`nil` when absent). -/

/-- Model of Go `url.Values` (`map[string][]string`). -/
abbrev Values := List (ByteStr × List ByteStr)

namespace Values

/-- Go map assignment `m[k] = vs`: replace the entry for `k`, or add one. -/
def store (k : ByteStr) (vs : List ByteStr) : Values → Values
  | [] => [(k, vs)]
  | (k1, vs1) :: rest =>
    if k = k1 then (k, vs) :: rest else (k1, vs1) :: store k vs rest

/-- Go `m[k] = append(m[k], v)` as done by `url.ParseQuery`. -/
def add (k : ByteStr) (v : ByteStr) : Values → Values
  | [] => [(k, [v])]
  | (k1, vs1) :: rest =>
    if k = k1 then (k1, vs1 ++ [v]) :: rest else (k1, vs1) :: add k v rest

/-- Go map indexing `m[k]` (the `nil` slice when the key is absent). -/
def getList (k : ByteStr) : Values → List ByteStr
  | [] => []
  | (k1, vs1) :: rest => if k = k1 then vs1 else getList k rest

/-- Whether the map has an entry for `k`. -/
def containsKey (k : ByteStr) : Values → Bool
  | [] => false
  | (k1, _) :: rest => k = k1 || containsKey k rest

/-- Go `url.Values.Set`: `m[k] = []string{v}`. -/
def set (k v : ByteStr) (m : Values) : Values := store k [v] m

end Values

/-! Go `url.Values.Encode`. -/

/-- Go `sort.Strings` order: lexicographic byte-wise comparison. -/
def keyLe : ByteStr → ByteStr → Bool
  | [], _ => true
  | _ :: _, [] => false
  | a :: as1, b :: bs1 => a < b || (a = b && keyLe as1 bs1)

/-- Insert an entry into a key-sorted association list. -/
def insortKey (p : ByteStr × List ByteStr) : Values → Values
  | [] => [p]
  | q :: rest => if keyLe p.1 q.1 then p :: q :: rest else q :: insortKey p rest

/-- Sort a `Values` by key (Go's `Encode` iterates keys in sorted order). -/
def sortByKey : Values → Values
  | [] => []
  | p :: rest => insortKey p (sortByKey rest)

/-- Flatten `(k, [v1, v2])` entries into `(k, v1), (k, v2)` pairs, in order. -/
def flattenVals : Values → List (ByteStr × ByteStr)
  | [] => []
  | (k, vs) :: rest => vs.map (fun v => (k, v)) ++ flattenVals rest

/-- One `key=value` piece of an encoded query, both components escaped. -/
def encodePair (kv : ByteStr × ByteStr) : ByteStr :=
  queryEscape kv.1 ++ 61 :: queryEscape kv.2

/-- Join byte strings with a separator byte (Go `strings.Join`). -/
def joinSep (sep : Nat) : List ByteStr → ByteStr
  | [] => []
  | [s] => s
  | s :: rest => s ++ sep :: joinSep sep rest

/-- Go `url.Values.Encode`: keys in sorted order, each value as
`key=value` with both sides query-escaped, pieces joined by `&`. -/
def Values.encode (m : Values) : ByteStr :=
  joinSep 38 ((flattenVals (sortByKey m)).map encodePair)

/-! Go `url.ParseQuery`. -/

/-- Split at every occurrence of a separator byte (the effect of Go's
`strings.Cut` loop in `url.parseQuery`). -/
def splitSep (sep : Nat) : ByteStr → List ByteStr
  | [] => [[]]
  | b :: rest =>
    if b = sep then [] :: splitSep sep rest
    else
      match splitSep sep rest with
      | s :: ss => (b :: s) :: ss
      | [] => [[b]]

/-- Go `strings.Cut`: split at the first occurrence of the separator; when
the separator is absent the second component is empty. -/
def cutByte (sep : Nat) : ByteStr → ByteStr × ByteStr
  | [] => ([], [])
  | b :: rest =>
    if b = sep then ([], rest)
    else
      let p := cutByte sep rest
      (b :: p.1, p.2)

/-- One iteration of the loop in Go `url.parseQuery`, acting on one `&`-slice
of the query: reject `;` (recording an error, slice skipped), skip empty
slices, cut at the first `=`, unescape key and value (error skips the slice),
and append the value under the key. The `Bool` is the error flag. -/
def parseQueryStep (acc : Values × Bool) (seg : ByteStr) : Values × Bool :=
  if containsByte 59 seg then (acc.1, true)
  else if seg = [] then acc
  else
    let kv := cutByte 61 seg
    match queryUnescape kv.1, queryUnescape kv.2 with
    | some k, some v => (Values.add k v acc.1, acc.2)
    | _, _ => (acc.1, true)

/-- Go `url.ParseQuery`: split the query on `&` and process each slice;
returns the accumulated map and whether any error was recorded. -/
def parseQuery (qs : ByteStr) : Values × Bool :=
  (splitSep 38 qs).foldl parseQueryStep ([], false)

example :
    (parseQuery (bs "a=1&b=x+y&a=2")).1 = [(bs "a", [bs "1", bs "2"]), (bs "b", [bs "x y"])] := by
  decide

example : Values.encode [(bs "b", [bs "x y"]), (bs "a", [bs "1"])] = bs "a=1&b=x+y" := by
  decide

/-! Subset of Go `url.Parse` / `url.URL`.

`BrowserURL` only uses `url.Parse`, `Hostname()`, assignment to `Host`,
`Path`, and `String()`.  We model the fragment of URL syntax those uses
exercise: `scheme://host[:port]path` with no userinfo, query, fragment or
percent-escapes, and with path bytes Go's `URL.String` reproduces verbatim.
`parseURL` returns `none` outside this fragment (Go's `url.Parse` accepts
more; every claim about parsing is stated relative to this fragment). -/

/-- Scheme bytes we accept: `a-z A-Z 0-9 + - .` (first byte a letter is
checked at the call site via nonemptiness plus this set; Go requires a
letter first — we fold that in). -/
def isSchemeByte (b : Nat) : Bool :=
  (65 ≤ b && b ≤ 90) || (97 ≤ b && b ≤ 122) || (48 ≤ b && b ≤ 57) ||
    b = 43 || b = 45 || b = 46

/-- Letter byte. -/
def isLetterByte (b : Nat) : Bool := (65 ≤ b && b ≤ 90) || (97 ≤ b && b ≤ 122)

/-- Decimal digit byte. -/
def isDigitByte (b : Nat) : Bool := 48 ≤ b && b ≤ 57

/-- Host bytes of the modelled fragment: letters, digits, `.`, `-`, `:`. -/
def isHostByte (b : Nat) : Bool :=
  isLetterByte b || isDigitByte b || b = 46 || b = 45 || b = 58

/-- Path bytes of the modelled fragment: unreserved bytes and `/` (these are
exactly reproduced by Go's `URL.String`). -/
def isPathByte (b : Nat) : Bool := isUnreservedByte b || b = 47

/-- The `URL` fields used by `BrowserURL`: `Scheme`, `Host` (may include a
port), `Path`. -/
structure GoURL where
  Scheme : ByteStr
  Host : ByteStr
  Path : ByteStr
deriving DecidableEq, Repr

/-- Modelled fragment of Go `url.Parse`: `scheme://host[:port]path` with a
nonempty letter-initial scheme, host bytes in `isHostByte`, path bytes in
`isPathByte`, and no `?`, `#`, `@` or `%` anywhere. -/
def parseURL (s : ByteStr) : Option GoURL :=
  if containsByte 63 s || containsByte 35 s || containsByte 64 s || containsByte 37 s then
    none
  else
    let sch := (cutByte 58 s).1
    match (cutByte 58 s).2 with
    | 47 :: 47 :: rest =>
      if sch = [] then none
      else if !(sch.all isSchemeByte) then none
      else if !(isLetterByte sch.headI) then none
      else
        let host := rest.takeWhile (fun b => b ≠ 47)
        let path := rest.dropWhile (fun b => b ≠ 47)
        if !(host.all isHostByte) then none
        else if !(path.all isPathByte) then none
        else some { Scheme := sch, Host := host, Path := path }
    | _ => none

/-- Go `url.URL.Hostname` via `splitHostPort`: strip a trailing
`:digits` (or a bare trailing `:`) from the host. -/
def hostnameOf (h : ByteStr) : ByteStr :=
  match h.reverse.dropWhile isDigitByte with
  | 58 :: rest1 => rest1.reverse
  | _ => h

/-- Go `url.URL.String` on the modelled fragment:
`scheme://host path` (the path bytes of the fragment are not re-escaped). -/
def GoURL.render (u : GoURL) : ByteStr :=
  u.Scheme ++ bs "://" ++ u.Host ++ u.Path

/-- Decimal digits, fuel-recursive so that it reduces definitionally; the
fuel strictly exceeds the digit count whenever it is at least `n + 1`. -/
def bsOfNatCore (fuel n : Nat) : ByteStr :=
  match fuel with
  | 0 => []
  | fuel1 + 1 => if n < 10 then [48 + n] else bsOfNatCore fuel1 (n / 10) ++ [48 + n % 10]

/-- Decimal byte string of a natural number (`fmt.Sprintf("%d", n)`). -/
def bsOfNat (n : Nat) : ByteStr := bsOfNatCore (n + 1) n

example : bsOfNat 8080 = bs "8080" := by decide

example : parseURL (bs "http://127.0.0.1/callback") =
    some { Scheme := bs "http", Host := bs "127.0.0.1", Path := bs "/callback" } := by
  decide

example : hostnameOf (bs "127.0.0.1:99") = bs "127.0.0.1" := by decide

/-! The `webapp` package (`src/webapp/webapp_flow.go`). -/

/-- Error kinds surfaced by the flow.  `stateMismatch` is
`errors.New("state mismatch")`; `callbackErrorParam` stands for an error that
surfaces the callback's own `error` query parameter (the spec's
`AuthorizationDenied`/`ProviderError`); the rest model bind, random-source,
URL-parse and listener failures. -/
inductive GoError where
  | portUnavailable
  | randomSourceError
  | invalidRedirectURI
  | listenerIOError
  | stateMismatch
  | callbackErrorParam (e : ByteStr)
deriving DecidableEq, Repr

/-- Modelled from the spec: the `localServer` value (its source file is not
under `src/`; `webapp_flow.go` uses its `Port()` accessor and assigns its
`CallbackPath` and `WriteSuccessHTML` fields).  Per the spec, `port` is the
OS-assigned ephemeral port, `CallbackPath` the expected redirect path, and
`WriteSuccessHTML` the caller-supplied response renderer. -/
structure LocalServer where
  port : Nat
  CallbackPath : ByteStr
  WriteSuccessHTML : Option (ByteStr → ByteStr)

/-- A `Flow` holds the state for the steps of the OAuth Web Application flow. -/
structure Flow where
  server : LocalServer
  clientID : ByteStr
  state : ByteStr

/-- Go `encoding/hex.EncodeToString`: two lower-case hex digits per byte. -/
def hexEncodeByte (b : Nat) : ByteStr :=
  [if b / 16 < 10 then 48 + b / 16 else 87 + b / 16,
   if b % 16 < 10 then 48 + b % 16 else 87 + b % 16]

/-- Go `encoding/hex.EncodeToString` over a byte slice. -/
def hexEncode : List Nat → ByteStr
  | [] => []
  | b :: rest => hexEncodeByte b ++ hexEncode rest

/-- Go `randomString(length)`: reads `length/2` random bytes and hex-encodes
them.  The outcome of `crypto/rand.Read` is an explicit input: `.ok bytes`
is a successful read filling the buffer, `.error e` a failed one.  On
failure the function returns the empty string together with the error. -/
def randomString (length : Nat) (randRead : Except GoError (List Nat)) :
    ByteStr × Option GoError :=
  match length, randRead with
  | _, .error e => ([], some e)
  | _, .ok bytes => (hexEncode bytes, none)

/-- Function `InitFlow` creates a new `Flow` from the result of `bindLocalServer` and
the outcome of the random read inside `randomString(20)`.  Note the source
line `state, _ := randomString(20)`: the error from `randomString` is
discarded, so a failed random read yields a flow whose `state` is `""`. -/
def InitFlow (bindResult : Except GoError LocalServer)
    (randRead : Except GoError (List Nat)) : Except GoError Flow :=
  match bindResult with
  | .error e => .error e
  | .ok server =>
    let state := (randomString 20 randRead).1
    .ok { server := server, clientID := [], state := state }

/-- The `BrowserParams` are GET query parameters for initiating the web flow. -/
structure BrowserParams where
  ClientID : ByteStr
  RedirectURI : ByteStr
  Scopes : List ByteStr
  LoginHandle : ByteStr
  AllowSignup : Bool

/-- The `url.Values` built by `BrowserURL` through its `q.Set` calls and the
two conditional `Set`s for `login` and `allow_signup`. -/
def browserQuery (clientID redirectURI : ByteStr) (scopes : List ByteStr)
    (state loginHandle : ByteStr) (allowSignup : Bool) : Values :=
  let q : Values := []
  let q := q.set (bs "client_id") clientID
  let q := q.set (bs "redirect_uri") redirectURI
  let q := q.set (bs "scope") (joinSep 32 scopes)
  let q := q.set (bs "state") state
  let q := if loginHandle ≠ [] then q.set (bs "login") loginHandle else q
  let q := if !allowSignup then q.set (bs "allow_signup") (bs "false") else q
  q

/-- Method `BrowserURL` appends GET query parameters to `baseURL` and returns the
URL the user should navigate to, together with the flow as mutated by the
method (it assigns `flow.server.CallbackPath` and `flow.clientID`).  The
redirect URI's host is set to `Hostname():port` with the port of the bound
server, its path is kept, and the query is `q.Encode()` appended after
`?`. -/
def BrowserURL (flow : Flow) (baseURL : ByteStr) (params : BrowserParams) :
    Except GoError (ByteStr × Flow) :=
  match parseURL params.RedirectURI with
  | none => .error .invalidRedirectURI
  | some ru =>
    let ru1 : GoURL :=
      { ru with Host := hostnameOf ru.Host ++ 58 :: bsOfNat flow.server.port }
    let flow1 : Flow :=
      { flow with
          server := { flow.server with CallbackPath := ru1.Path },
          clientID := params.ClientID }
    let q := browserQuery params.ClientID ru1.render params.Scopes flow.state
      params.LoginHandle params.AllowSignup
    .ok (baseURL ++ 63 :: q.encode, flow1)

/-- Method `StartServer` stores the success renderer on the server and serves; the
blocking `Serve()` call's outcome is an explicit input that the function
returns, alongside the flow as mutated. -/
def StartServer (flow : Flow) (writeSuccess : ByteStr → ByteStr)
    (serveResult : Except GoError Unit) : Flow × Except GoError Unit :=
  ({ flow with server := { flow.server with WriteSuccessHTML := some writeSuccess } },
   serveResult)

/-- Modelled from the spec: the `CallbackResult` produced by the local
callback server (the `localServer` source file is not under `src/`;
`webapp_flow.go` reads its `Code` and `State` fields).  Per the spec it
carries `code`, `state`, and an optional `error`. -/
structure CodeResponse where
  Code : ByteStr
  State : ByteStr
  ErrorParam : Option ByteStr
deriving DecidableEq, Repr

/-- Modelled from the spec: `WaitForCode` hands the single callback result to
the waiter.  Listener I/O failures are propagated as an error; a callback
request whose query carries `error` yields a result with only `error` set,
otherwise the result carries the request's `code` and `state`. -/
def waitForCode (cbCode cbState : ByteStr) (cbError : Option ByteStr)
    (listenerFailure : Option GoError) : Except GoError CodeResponse :=
  match listenerFailure with
  | some e => .error e
  | none =>
    match cbError with
    | some e => .ok { Code := [], State := [], ErrorParam := some e }
    | none => .ok { Code := cbCode, State := cbState, ErrorParam := none }

/-- The single form POST `AccessTokenWithParams` may issue to the token
endpoint via `api.PostForm`. -/
structure PostRequest where
  url : ByteStr
  body : Values
deriving DecidableEq, Repr

/-- Method `AccessTokenWithParams`: wait for the callback result (an explicit input
standing for `flow.server.WaitForCode()`), fail on a state mismatch, replace
a `nil` `postParams` with an empty map, assign the four control fields, and
issue the POST.  The model boundary is the POST itself: `.ok req` means
exactly one POST `req` was issued (its response parsing lives in the
external `api` module); `.error e` means the function failed having issued
no POST. -/
def AccessTokenWithParams (flow : Flow) (tokenURL clientSecret : ByteStr)
    (postParams : Option Values) (waitResult : Except GoError CodeResponse) :
    Except GoError PostRequest :=
  match waitResult with
  | .error e => .error e
  | .ok code =>
    if code.State ≠ flow.state then .error .stateMismatch
    else
      let pp := postParams.getD []
      let pp := pp.store (bs "client_id") [flow.clientID]
      let pp := pp.store (bs "client_secret") [clientSecret]
      let pp := pp.store (bs "code") [code.Code]
      let pp := pp.store (bs "state") [flow.state]
      .ok { url := tokenURL, body := pp }

/-- Method `AccessToken` blocks until the browser flow has completed and returns the
access token: it delegates to `AccessTokenWithParams` with `nil` params. -/
def AccessToken (flow : Flow) (tokenURL clientSecret : ByteStr)
    (waitResult : Except GoError CodeResponse) : Except GoError PostRequest :=
  AccessTokenWithParams flow tokenURL clientSecret none waitResult

/-! Lemmas about escaping and query round-trips. -/

theorem upperHexDigit_ne (n : Nat) :
    upperHexDigit n ≠ 38 ∧ upperHexDigit n ≠ 59 ∧ upperHexDigit n ≠ 61 := by
  unfold upperHexDigit
  split <;> omega

theorem mem_queryEscape {b : Nat} :
    ∀ s, b ∈ queryEscape s → b ≠ 38 ∧ b ≠ 59 ∧ b ≠ 61
  | [] => by simp [queryEscape]
  | c :: rest => by
    intro hb
    simp only [queryEscape, List.mem_append] at hb
    rcases hb with hb | hb
    · by_cases h1 : isUnreservedByte c
      · rw [if_pos h1] at hb
        simp only [List.mem_singleton] at hb
        subst hb
        simp only [isUnreservedByte, Bool.or_eq_true, Bool.and_eq_true,
          decide_eq_true_eq] at h1
        omega
      · rw [if_neg h1] at hb
        by_cases h2 : c = 32
        · rw [if_pos h2] at hb
          simp only [List.mem_singleton] at hb
          omega
        · rw [if_neg h2] at hb
          simp only [List.mem_cons, List.mem_singleton, List.not_mem_nil,
            or_false] at hb
          rcases hb with rfl | rfl | rfl
          · omega
          · exact upperHexDigit_ne _
          · exact upperHexDigit_ne _
    · exact mem_queryEscape rest hb

theorem fromHexDigit_upperHexDigit {n : Nat} (h : n < 16) :
    fromHexDigit (upperHexDigit n) = some n := by
  unfold upperHexDigit fromHexDigit
  split_ifs <;> simp_all <;> omega

theorem queryUnescape_cons (c : Nat) (rest : ByteStr) (h37 : c ≠ 37) (h43 : c ≠ 43) :
    queryUnescape (c :: rest) = (queryUnescape rest).map (fun t => c :: t) := by
  match rest with
  | [] => simp [queryUnescape, h37, h43]
  | [x] => simp [queryUnescape, h37, h43]
  | x :: y :: rest1 => simp [queryUnescape, h37, h43]

theorem queryUnescape_plus (rest : ByteStr) :
    queryUnescape (43 :: rest) = (queryUnescape rest).map (fun t => 32 :: t) := by
  match rest with
  | [] => rfl
  | [x] => rfl
  | x :: y :: rest1 => rfl

theorem queryUnescape_percent (h1 h2 : Nat) (rest : ByteStr) :
    queryUnescape (37 :: h1 :: h2 :: rest) =
      (fromHexDigit h1).bind (fun d1 =>
        (fromHexDigit h2).bind (fun d2 =>
          (queryUnescape rest).bind (fun tail => some ((16 * d1 + d2) :: tail)))) := rfl

theorem queryUnescape_queryEscape : ∀ s, WfBytes s → queryUnescape (queryEscape s) = some s
  | [], _ => rfl
  | c :: rest, hwf => by
    have hc : c < 256 := hwf c (List.mem_cons_self _ _)
    have hrest : WfBytes rest := fun b hb => hwf b (List.mem_cons_of_mem _ hb)
    have ih := queryUnescape_queryEscape rest hrest
    by_cases h1 : isUnreservedByte c
    · have hne37 : c ≠ 37 := by
        intro h; rw [h] at h1; exact absurd h1 (by decide)
      have hne43 : c ≠ 43 := by
        intro h; rw [h] at h1; exact absurd h1 (by decide)
      simp [queryEscape, h1, queryUnescape_cons c _ hne37 hne43, ih]
    · by_cases h2 : c = 32
      · subst h2
        simp [queryEscape, h1, queryUnescape_plus, ih]
      · have hdiv : c / 16 < 16 := by omega
        have hmod : c % 16 < 16 := by omega
        simp [queryEscape, h1, h2, queryUnescape_percent,
          fromHexDigit_upperHexDigit hdiv, fromHexDigit_upperHexDigit hmod, ih,
          Nat.div_add_mod]

theorem containsByte_false_of_not_mem {b : Nat} :
    ∀ s : ByteStr, b ∉ s → containsByte b s = false
  | [], _ => rfl
  | c :: rest, h => by
    simp only [List.mem_cons, not_or] at h
    have hcb : ¬(c = b) := fun hh => h.1 hh.symm
    simp [containsByte, hcb, containsByte_false_of_not_mem rest h.2]

theorem cutByte_append {sep : Nat} :
    ∀ (a b : ByteStr), sep ∉ a → cutByte sep (a ++ sep :: b) = (a, b)
  | [], b, _ => by simp [cutByte]
  | c :: a1, b, h => by
    simp only [List.mem_cons, not_or] at h
    have hc : ¬(c = sep) := fun hh => h.1 hh.symm
    simp [cutByte, hc, cutByte_append a1 b h.2]

theorem splitSep_of_not_mem {sep : Nat} :
    ∀ s : ByteStr, sep ∉ s → splitSep sep s = [s]
  | [], _ => rfl
  | c :: rest, h => by
    simp only [List.mem_cons, not_or] at h
    have hc : ¬(c = sep) := fun hh => h.1 hh.symm
    simp [splitSep, hc, splitSep_of_not_mem rest h.2]

theorem splitSep_append {sep : Nat} :
    ∀ (s t : ByteStr), sep ∉ s →
      splitSep sep (s ++ sep :: t) = s :: splitSep sep t
  | [], t, _ => by simp [splitSep]
  | c :: s1, t, h => by
    simp only [List.mem_cons, not_or] at h
    have hc : ¬(c = sep) := fun hh => h.1 hh.symm
    simp [splitSep, hc, splitSep_append s1 t h.2]

theorem splitSep_joinSep {sep : Nat} :
    ∀ segs : List ByteStr, segs ≠ [] → (∀ s ∈ segs, sep ∉ s) →
      splitSep sep (joinSep sep segs) = segs
  | [], hne, _ => absurd rfl hne
  | [s], _, h => by simp [joinSep, splitSep_of_not_mem s (h s (by simp))]
  | s :: s2 :: rest, _, h => by
    have ih := splitSep_joinSep (s2 :: rest) (by simp)
      (fun x hx => h x (List.mem_cons_of_mem _ hx))
    simp [joinSep, splitSep_append s _ (h s (List.mem_cons_self _ _)), ih]

theorem mem_joinSep {sep b : Nat} :
    ∀ l : List ByteStr, b ∈ joinSep sep l → b = sep ∨ ∃ s ∈ l, b ∈ s
  | [], h => by simp [joinSep] at h
  | [s], h => Or.inr ⟨s, by simp, by simpa [joinSep] using h⟩
  | s :: s2 :: rest, h => by
    simp only [joinSep, List.mem_append, List.mem_cons] at h
    rcases h with h | h | h
    · exact Or.inr ⟨s, by simp, h⟩
    · exact Or.inl h
    · rcases mem_joinSep (s2 :: rest) h with h1 | ⟨x, hx, hbx⟩
      · exact Or.inl h1
      · exact Or.inr ⟨x, List.mem_cons_of_mem _ hx, hbx⟩

theorem mem_encodePair {b : Nat} {kv : ByteStr × ByteStr} (h : b ∈ encodePair kv) :
    b = 61 ∨ b ∈ queryEscape kv.1 ∨ b ∈ queryEscape kv.2 := by
  simp only [encodePair, List.mem_append, List.mem_cons] at h
  tauto

theorem parseQueryStep_encodePair (m : Values) (kv : ByteStr × ByteStr)
    (h1 : WfBytes kv.1) (h2 : WfBytes kv.2) :
    parseQueryStep (m, false) (encodePair kv) = (Values.add kv.1 kv.2 m, false) := by
  have hno59 : containsByte 59 (encodePair kv) = false := by
    apply containsByte_false_of_not_mem
    intro hmem
    rcases mem_encodePair hmem with h61 | hh | hh
    · exact absurd h61 (by decide)
    · exact (mem_queryEscape _ hh).2.1 rfl
    · exact (mem_queryEscape _ hh).2.1 rfl
  have hne : encodePair kv ≠ [] := by simp [encodePair]
  have hcut : cutByte 61 (encodePair kv) = (queryEscape kv.1, queryEscape kv.2) :=
    cutByte_append _ _ (fun hh => (mem_queryEscape _ hh).2.2 rfl)
  simp [parseQueryStep, hno59, hne, hcut,
    queryUnescape_queryEscape _ h1, queryUnescape_queryEscape _ h2]

theorem foldl_parseQueryStep :
    ∀ (pairs : List (ByteStr × ByteStr)) (m : Values),
      (∀ kv ∈ pairs, WfBytes kv.1 ∧ WfBytes kv.2) →
      (pairs.map encodePair).foldl parseQueryStep (m, false) =
        (pairs.foldl (fun acc kv => Values.add kv.1 kv.2 acc) m, false)
  | [], m, _ => rfl
  | kv :: rest, m, h => by
    have hkv := h kv (List.mem_cons_self _ _)
    simp only [List.map_cons, List.foldl_cons,
      parseQueryStep_encodePair m kv hkv.1 hkv.2]
    exact foldl_parseQueryStep rest _ (fun x hx => h x (List.mem_cons_of_mem _ hx))

theorem parseQuery_encodePairs (pairs : List (ByteStr × ByteStr))
    (h : ∀ kv ∈ pairs, WfBytes kv.1 ∧ WfBytes kv.2) :
    parseQuery (joinSep 38 (pairs.map encodePair)) =
      (pairs.foldl (fun acc kv => Values.add kv.1 kv.2 acc) [], false) := by
  cases pairs with
  | nil => rfl
  | cons kv rest =>
    have hsplit : splitSep 38 (joinSep 38 ((kv :: rest).map encodePair)) =
        (kv :: rest).map encodePair := by
      apply splitSep_joinSep _ (by simp)
      intro s hs
      rcases List.mem_map.mp hs with ⟨p, _, rfl⟩
      intro hmem
      rcases mem_encodePair hmem with h61 | hh | hh
      · exact absurd h61 (by decide)
      · exact (mem_queryEscape _ hh).1 rfl
      · exact (mem_queryEscape _ hh).1 rfl
    rw [parseQuery, hsplit, foldl_parseQueryStep _ _ h]

theorem encode_eq_joinSep (m : Values) :
    m.encode = joinSep 38 ((flattenVals (sortByKey m)).map encodePair) := rfl

theorem wf_pair {a b : ByteStr} (ha : WfBytes a) (hb : WfBytes b) :
    WfBytes (a, b).1 ∧ WfBytes (a, b).2 := ⟨ha, hb⟩

/-- Parsing the encoded query built by `BrowserURL` recovers each parameter:
the four unconditional ones, `login` exactly when the handle is nonempty, and
`allow_signup` (with value `"false"`) exactly when `allowSignup` is false. -/
theorem parseQuery_browserQuery_encode (cid r st lg : ByteStr) (scopes : List ByteStr)
    (alw : Bool) (hcid : WfBytes cid) (hr : WfBytes r) (hst : WfBytes st)
    (hlg : WfBytes lg) (hsc : WfBytes (joinSep 32 scopes)) :
    (parseQuery (Values.encode (browserQuery cid r scopes st lg alw))).1.getList
        (bs "client_id") = [cid] ∧
    (parseQuery (Values.encode (browserQuery cid r scopes st lg alw))).1.getList
        (bs "redirect_uri") = [r] ∧
    (parseQuery (Values.encode (browserQuery cid r scopes st lg alw))).1.getList
        (bs "scope") = [joinSep 32 scopes] ∧
    (parseQuery (Values.encode (browserQuery cid r scopes st lg alw))).1.getList
        (bs "state") = [st] ∧
    (parseQuery (Values.encode (browserQuery cid r scopes st lg alw))).1.getList
        (bs "login") = (if lg = [] then [] else [lg]) ∧
    (parseQuery (Values.encode (browserQuery cid r scopes st lg alw))).1.getList
        (bs "allow_signup") = (if alw then [] else [bs "false"]) ∧
    (parseQuery (Values.encode (browserQuery cid r scopes st lg alw))).1.containsKey
        (bs "allow_signup") = !alw ∧
    (parseQuery (Values.encode (browserQuery cid r scopes st lg alw))).2 = false := by
  by_cases hl : lg = []
  · subst hl
    cases alw
    · have hpairs : flattenVals (sortByKey (browserQuery cid r scopes st [] false)) =
          [(bs "allow_signup", bs "false"), (bs "client_id", cid), (bs "redirect_uri", r),
           (bs "scope", joinSep 32 scopes), (bs "state", st)] := rfl
      rw [encode_eq_joinSep, hpairs, parseQuery_encodePairs _ ?wf]
      case wf =>
        intro kv hkv
        simp only [List.mem_cons, List.not_mem_nil, or_false] at hkv
        rcases hkv with rfl | rfl | rfl | rfl | rfl
        · exact wf_pair (by decide) (by decide)
        · exact wf_pair (by decide) hcid
        · exact wf_pair (by decide) hr
        · exact wf_pair (by decide) hsc
        · exact wf_pair (by decide) hst
      exact ⟨rfl, rfl, rfl, rfl, rfl, rfl, rfl, rfl⟩
    · have hpairs : flattenVals (sortByKey (browserQuery cid r scopes st [] true)) =
          [(bs "client_id", cid), (bs "redirect_uri", r),
           (bs "scope", joinSep 32 scopes), (bs "state", st)] := rfl
      rw [encode_eq_joinSep, hpairs, parseQuery_encodePairs _ ?wf2]
      case wf2 =>
        intro kv hkv
        simp only [List.mem_cons, List.not_mem_nil, or_false] at hkv
        rcases hkv with rfl | rfl | rfl | rfl
        · exact wf_pair (by decide) hcid
        · exact wf_pair (by decide) hr
        · exact wf_pair (by decide) hsc
        · exact wf_pair (by decide) hst
      exact ⟨rfl, rfl, rfl, rfl, rfl, rfl, rfl, rfl⟩
  · cases alw
    · have hpairs : flattenVals (sortByKey (browserQuery cid r scopes st lg false)) =
          [(bs "allow_signup", bs "false"), (bs "client_id", cid), (bs "login", lg),
           (bs "redirect_uri", r), (bs "scope", joinSep 32 scopes), (bs "state", st)] := by
        simp only [browserQuery, if_pos hl]
        rfl
      rw [encode_eq_joinSep, hpairs, parseQuery_encodePairs _ ?wf3]
      case wf3 =>
        intro kv hkv
        simp only [List.mem_cons, List.not_mem_nil, or_false] at hkv
        rcases hkv with rfl | rfl | rfl | rfl | rfl | rfl
        · exact wf_pair (by decide) (by decide)
        · exact wf_pair (by decide) hcid
        · exact wf_pair (by decide) hlg
        · exact wf_pair (by decide) hr
        · exact wf_pair (by decide) hsc
        · exact wf_pair (by decide) hst
      refine ⟨rfl, rfl, rfl, rfl, ?_, rfl, rfl, rfl⟩
      rw [if_neg hl]
      rfl
    · have hpairs : flattenVals (sortByKey (browserQuery cid r scopes st lg true)) =
          [(bs "client_id", cid), (bs "login", lg), (bs "redirect_uri", r),
           (bs "scope", joinSep 32 scopes), (bs "state", st)] := by
        simp only [browserQuery, if_pos hl]
        rfl
      rw [encode_eq_joinSep, hpairs, parseQuery_encodePairs _ ?wf4]
      case wf4 =>
        intro kv hkv
        simp only [List.mem_cons, List.not_mem_nil, or_false] at hkv
        rcases hkv with rfl | rfl | rfl | rfl | rfl
        · exact wf_pair (by decide) hcid
        · exact wf_pair (by decide) hlg
        · exact wf_pair (by decide) hr
        · exact wf_pair (by decide) hsc
        · exact wf_pair (by decide) hst
      refine ⟨rfl, rfl, rfl, rfl, ?_, rfl, rfl, rfl⟩
      rw [if_neg hl]
      rfl

/-! Lemmas on well-formedness propagation. -/

theorem wfBytes_append {a b : ByteStr} (ha : WfBytes a) (hb : WfBytes b) :
    WfBytes (a ++ b) := by
  intro x hx
  rcases List.mem_append.mp hx with h | h
  · exact ha x h
  · exact hb x h

theorem wfBytes_cons {b : Nat} {s : ByteStr} (hb : b < 256) (hs : WfBytes s) :
    WfBytes (b :: s) := by
  intro x hx
  rcases List.mem_cons.mp hx with rfl | h
  · exact hb
  · exact hs x h

theorem wfBytes_joinSep {sep : Nat} {l : List ByteStr} (hsep : sep < 256)
    (h : ∀ s ∈ l, WfBytes s) : WfBytes (joinSep sep l) := by
  intro b hb
  rcases mem_joinSep l hb with rfl | ⟨s, hs, hbs⟩
  · exact hsep
  · exact h s hs b hbs

theorem wfBytes_bsOfNatCore : ∀ fuel n, WfBytes (bsOfNatCore fuel n)
  | 0, _ => by intro b hb; simp [bsOfNatCore] at hb
  | fuel + 1, n => by
    intro b hb
    simp only [bsOfNatCore] at hb
    split at hb
    · simp only [List.mem_singleton] at hb
      omega
    · rcases List.mem_append.mp hb with h | h
      · exact wfBytes_bsOfNatCore fuel (n / 10) b h
      · simp only [List.mem_singleton] at h
        have : n % 10 < 10 := Nat.mod_lt _ (by omega)
        omega

theorem mem_cutByte_fst {sep b : Nat} :
    ∀ s : ByteStr, b ∈ (cutByte sep s).1 → b ∈ s
  | [], h => by simp [cutByte] at h
  | c :: rest, h => by
    by_cases hc : c = sep
    · simp [cutByte, hc] at h
    · simp only [cutByte, if_neg hc, List.mem_cons] at h
      rcases h with rfl | h
      · exact List.mem_cons_self _ _
      · exact List.mem_cons_of_mem _ (mem_cutByte_fst rest h)

theorem mem_cutByte_snd {sep b : Nat} :
    ∀ s : ByteStr, b ∈ (cutByte sep s).2 → b ∈ s
  | [], h => by simp [cutByte] at h
  | c :: rest, h => by
    by_cases hc : c = sep
    · simp only [cutByte, if_pos hc] at h
      exact List.mem_cons_of_mem _ h
    · simp only [cutByte, if_neg hc] at h
      exact List.mem_cons_of_mem _ (mem_cutByte_snd rest h)

theorem mem_takeWhile {p : Nat → Bool} {b : Nat} :
    ∀ s : ByteStr, b ∈ s.takeWhile p → b ∈ s
  | [], h => by simp [List.takeWhile] at h
  | c :: rest, h => by
    simp only [List.takeWhile] at h
    cases hp : p c with
    | false => rw [hp] at h; simp at h
    | true =>
      rw [hp] at h
      rcases List.mem_cons.mp h with rfl | h
      · exact List.mem_cons_self _ _
      · exact List.mem_cons_of_mem _ (mem_takeWhile rest h)

theorem mem_dropWhile {p : Nat → Bool} {b : Nat} :
    ∀ s : ByteStr, b ∈ s.dropWhile p → b ∈ s
  | [], h => by simp [List.dropWhile] at h
  | c :: rest, h => by
    simp only [List.dropWhile] at h
    cases hp : p c with
    | false => rw [hp] at h; exact h
    | true => rw [hp] at h; exact List.mem_cons_of_mem _ (mem_dropWhile rest h)

theorem mem_hostnameOf {b : Nat} {h : ByteStr} (hb : b ∈ hostnameOf h) : b ∈ h := by
  unfold hostnameOf at hb
  split at hb
  case _ heq =>
    rw [List.mem_reverse] at hb
    have h1 : b ∈ (58 : Nat) :: _ := List.mem_cons_of_mem 58 hb
    rw [← heq] at h1
    exact List.mem_reverse.mp (mem_dropWhile _ h1)
  case _ => exact hb

theorem parseURL_mem {s : ByteStr} {u : GoURL} (h : parseURL s = some u) :
    (∀ b ∈ u.Scheme, b ∈ s) ∧ (∀ b ∈ u.Host, b ∈ s) ∧ (∀ b ∈ u.Path, b ∈ s) := by
  unfold parseURL at h
  split at h
  · exact absurd h (by simp)
  · split at h
    case _ rest heq =>
      dsimp only at h
      split_ifs at h
      injection h with h
      subst h
      refine ⟨?_, ?_, ?_⟩
      · intro b hb
        exact mem_cutByte_fst s hb
      · intro b hb
        have h1 : b ∈ rest := mem_takeWhile rest hb
        have h2 : b ∈ (cutByte 58 s).2 := by
          rw [heq]; exact List.mem_cons_of_mem _ (List.mem_cons_of_mem _ h1)
        exact mem_cutByte_snd s h2
      · intro b hb
        have h1 : b ∈ rest := mem_dropWhile rest hb
        have h2 : b ∈ (cutByte 58 s).2 := by
          rw [heq]; exact List.mem_cons_of_mem _ (List.mem_cons_of_mem _ h1)
        exact mem_cutByte_snd s h2
    case _ => exact absurd h (by simp)

/-! Lemmas on map update and lookup. -/

theorem getList_store_self (k : ByteStr) (vs : List ByteStr) :
    ∀ m : Values, (Values.store k vs m).getList k = vs
  | [] => by simp [Values.store, Values.getList]
  | (k1, vs1) :: rest => by
    by_cases h : k = k1
    · simp [Values.store, h, Values.getList]
    · simp [Values.store, h, Values.getList, getList_store_self k vs rest]

theorem getList_store_ne {k k1 : ByteStr} (h : k ≠ k1) (vs : List ByteStr) :
    ∀ m : Values, (Values.store k1 vs m).getList k = m.getList k
  | [] => by simp [Values.store, Values.getList, h]
  | (k2, vs2) :: rest => by
    by_cases h2 : k1 = k2
    · subst h2
      simp [Values.store, Values.getList, h]
    · by_cases h3 : k = k2
      · simp [Values.store, h2, Values.getList, h3]
      · simp [Values.store, h2, Values.getList, h3, getList_store_ne h vs rest]

theorem hexEncode_length : ∀ l : List Nat, (hexEncode l).length = 2 * l.length
  | [] => rfl
  | b :: rest => by
    simp [hexEncode, hexEncodeByte, hexEncode_length rest]
    omega

/-! Concrete fixtures. -/

/-- A concrete bound server. -/
def srv0 : LocalServer := { port := 8080, CallbackPath := [], WriteSuccessHTML := none }

/-- A concrete flow with a nonempty state nonce. -/
def flow0 : Flow := { server := srv0, clientID := bs "id", state := bs "xy" }

/-- A concrete authorization base URL. -/
def base0 : ByteStr := bs "https://gh/auth"

/-- Concrete browser parameters with `AllowSignup = false` and no login. -/
def params0 : BrowserParams :=
  { ClientID := bs "id", RedirectURI := bs "http://127.0.0.1/cb",
    Scopes := [bs "repo"], LoginHandle := [], AllowSignup := false }

/-! Claims. -/

/-- C1: for every flow and every callback result whose `state` differs from
the flow's stored nonce, `AccessTokenWithParams` fails with the
state-mismatch error; the `.error` result means the token endpoint receives
zero POSTs (a POST is issued exactly when the result is `.ok`). -/
theorem claim_C1 (flow : Flow) (tokenURL clientSecret : ByteStr)
    (postParams : Option Values) (code : CodeResponse)
    (h : code.State ≠ flow.state) :
    AccessTokenWithParams flow tokenURL clientSecret postParams (.ok code) =
      Except.error .stateMismatch := by
  simp [AccessTokenWithParams, h]

/-- Witness for C1 at a concrete mismatching callback. -/
theorem claim_C1_witness :
    bs "ab" ≠ flow0.state ∧
    AccessTokenWithParams flow0 (bs "https://t") (bs "sec") none
        (.ok { Code := bs "c", State := bs "ab", ErrorParam := none }) =
      Except.error .stateMismatch :=
  ⟨by decide, claim_C1 flow0 (bs "https://t") (bs "sec") none
    { Code := bs "c", State := bs "ab", ErrorParam := none } (by decide)⟩

/-- C4 counterexample: the random source fails, the bind succeeds, and
`InitFlow` nevertheless returns a `Flow` (whose state is the empty string)
because the source line `state, _ := randomString(20)` discards the error. -/
theorem claim_C4_counterexample :
    InitFlow (.ok srv0) (.error .randomSourceError) =
      .ok { server := srv0, clientID := [], state := [] } := rfl

/-- C4 amended: `InitFlow` ignores a random-source failure — it returns a
`Flow` whenever the server bind succeeds (with the empty state string when
the random read failed) and fails only when the bind fails. -/
theorem claim_C4_amended (srv : LocalServer) (e : GoError)
    (randRead : Except GoError (List Nat)) :
    InitFlow (.ok srv) randRead =
      .ok { server := srv, clientID := [], state := (randomString 20 randRead).1 } ∧
    InitFlow (.error e) randRead = .error e ∧
    (randomString 20 (.error e)).1 = [] :=
  ⟨rfl, rfl, rfl⟩

/-- C5: on a state-matching callback, `AccessTokenWithParams` issues exactly
one POST (`.ok req`) whose body holds the four control fields — the flow's
`clientID`, the given `clientSecret`, the callback `code`, and the flow's
`state` — for any caller-supplied `postParams`, so caller values under those
keys are overwritten. -/
theorem claim_C5 (flow : Flow) (tokenURL clientSecret : ByteStr)
    (postParams : Option Values) (code : CodeResponse)
    (h : code.State = flow.state) :
    ∃ req : PostRequest,
      AccessTokenWithParams flow tokenURL clientSecret postParams (.ok code) = .ok req ∧
      req.url = tokenURL ∧
      req.body.getList (bs "client_id") = [flow.clientID] ∧
      req.body.getList (bs "client_secret") = [clientSecret] ∧
      req.body.getList (bs "code") = [code.Code] ∧
      req.body.getList (bs "state") = [flow.state] := by
  have hres : AccessTokenWithParams flow tokenURL clientSecret postParams (.ok code) =
      .ok { url := tokenURL,
            body := Values.store (bs "state") [flow.state]
              (Values.store (bs "code") [code.Code]
                (Values.store (bs "client_secret") [clientSecret]
                  (Values.store (bs "client_id") [flow.clientID]
                    (postParams.getD [])))) } := by
    simp [AccessTokenWithParams, h]
  refine ⟨_, hres, rfl, ?_, ?_, ?_, ?_⟩
  · rw [getList_store_ne (show bs "client_id" ≠ bs "state" from by decide),
      getList_store_ne (show bs "client_id" ≠ bs "code" from by decide),
      getList_store_ne (show bs "client_id" ≠ bs "client_secret" from by decide),
      getList_store_self]
  · rw [getList_store_ne (show bs "client_secret" ≠ bs "state" from by decide),
      getList_store_ne (show bs "client_secret" ≠ bs "code" from by decide),
      getList_store_self]
  · rw [getList_store_ne (show bs "code" ≠ bs "state" from by decide),
      getList_store_self]
  · rw [getList_store_self]

/-- Witness for C5: concrete matching callback; caller-supplied values under
the control keys are overwritten. -/
theorem claim_C5_witness :
    bs "xy" = flow0.state ∧
    (∃ req : PostRequest,
      AccessTokenWithParams flow0 (bs "https://t") (bs "sec")
          (some [(bs "client_id", [bs "evil"])])
          (.ok { Code := bs "c", State := bs "xy", ErrorParam := none }) = .ok req ∧
      req.url = bs "https://t" ∧
      req.body.getList (bs "client_id") = [flow0.clientID] ∧
      req.body.getList (bs "client_secret") = [bs "sec"] ∧
      req.body.getList (bs "code") = [bs "c"] ∧
      req.body.getList (bs "state") = [flow0.state]) :=
  ⟨by decide, claim_C5 flow0 (bs "https://t") (bs "sec")
    (some [(bs "client_id", [bs "evil"])])
    { Code := bs "c", State := bs "xy", ErrorParam := none } (by decide)⟩

/-- C7 counterexample: a callback carrying `error=access_denied` makes
`AccessTokenWithParams` fail with the state-mismatch error (the result of
the spec-modelled `WaitForCode` carries only the error, so its empty state
fails the nonce comparison); the callback's own error value is not what is
surfaced. -/
theorem claim_C7_counterexample :
    AccessTokenWithParams flow0 (bs "https://t") (bs "sec") none
        (waitForCode (bs "c") (bs "xy") (some (bs "access_denied")) none) =
      Except.error .stateMismatch ∧
    GoError.stateMismatch ≠ GoError.callbackErrorParam (bs "access_denied") :=
  ⟨rfl, by decide⟩

/-- C7 amended: if the callback carried an `error` parameter and the flow
nonce is nonempty, `AccessTokenWithParams` issues no POST, but the failure
it reports is the state mismatch — the callback's error is not surfaced
(`webapp_flow.go` never reads an error field of the callback result). -/
theorem claim_C7_amended (flow : Flow) (tokenURL clientSecret : ByteStr)
    (pp : Option Values) (c st e : ByteStr)
    (h : flow.state ≠ []) :
    AccessTokenWithParams flow tokenURL clientSecret pp
        (waitForCode c st (some e) none) = Except.error .stateMismatch := by
  have hne : ([] : ByteStr) ≠ flow.state := fun hh => h hh.symm
  simp [waitForCode, AccessTokenWithParams, hne]

/-- Witness for C7 amended at a concrete denied callback. -/
theorem claim_C7_amended_witness :
    flow0.state ≠ [] ∧
    AccessTokenWithParams flow0 (bs "https://t") (bs "sec") none
        (waitForCode (bs "c") (bs "xy") (some (bs "access_denied")) none) =
      Except.error .stateMismatch :=
  ⟨by decide, claim_C7_amended flow0 (bs "https://t") (bs "sec") none
    (bs "c") (bs "xy") (bs "access_denied") (by decide)⟩

/-- C9: `AccessToken` is definitionally `AccessTokenWithParams` with `nil`
post parameters, and a `nil` parameter map behaves exactly like an empty
one. -/
theorem claim_C9 (flow : Flow) (tokenURL clientSecret : ByteStr)
    (waitResult : Except GoError CodeResponse) :
    AccessToken flow tokenURL clientSecret waitResult =
      AccessTokenWithParams flow tokenURL clientSecret none waitResult ∧
    AccessTokenWithParams flow tokenURL clientSecret none waitResult =
      AccessTokenWithParams flow tokenURL clientSecret (some []) waitResult := by
  refine ⟨rfl, ?_⟩
  cases waitResult <;> rfl

/-- C10: every caller-supplied entry under a key other than the four control
keys is passed through into the POST body unchanged. -/
theorem claim_C10 (flow : Flow) (tokenURL clientSecret : ByteStr) (pp : Values)
    (code : CodeResponse) (k : ByteStr)
    (h : code.State = flow.state)
    (h1 : k ≠ bs "client_id") (h2 : k ≠ bs "client_secret")
    (h3 : k ≠ bs "code") (h4 : k ≠ bs "state") :
    ∃ req : PostRequest,
      AccessTokenWithParams flow tokenURL clientSecret (some pp) (.ok code) = .ok req ∧
      req.body.getList k = pp.getList k := by
  have hres : AccessTokenWithParams flow tokenURL clientSecret (some pp) (.ok code) =
      .ok { url := tokenURL,
            body := Values.store (bs "state") [flow.state]
              (Values.store (bs "code") [code.Code]
                (Values.store (bs "client_secret") [clientSecret]
                  (Values.store (bs "client_id") [flow.clientID] pp))) } := by
    simp [AccessTokenWithParams, h]
  refine ⟨_, hres, ?_⟩
  rw [getList_store_ne h4, getList_store_ne h3, getList_store_ne h2,
    getList_store_ne h1]

/-- Witness for C10 with a concrete extra parameter. -/
theorem claim_C10_witness :
    bs "xy" = flow0.state ∧ bs "grant" ≠ bs "client_id" ∧
    bs "grant" ≠ bs "client_secret" ∧ bs "grant" ≠ bs "code" ∧
    bs "grant" ≠ bs "state" ∧
    (∃ req : PostRequest,
      AccessTokenWithParams flow0 (bs "https://t") (bs "sec")
          (some [(bs "grant", [bs "x"])])
          (.ok { Code := bs "c", State := bs "xy", ErrorParam := none }) = .ok req ∧
      req.body.getList (bs "grant") = Values.getList (bs "grant") [(bs "grant", [bs "x"])]) :=
  ⟨by decide, by decide, by decide, by decide, by decide,
    claim_C10 flow0 (bs "https://t") (bs "sec") [(bs "grant", [bs "x"])]
      { Code := bs "c", State := bs "xy", ErrorParam := none } (bs "grant")
      (by decide) (by decide) (by decide) (by decide) (by decide)⟩

/-! Lemmas on the BrowserURL output shape. -/

/-- Successful `BrowserURL` output: the returned URL is
`baseURL ? q.Encode()` for the query built by the method, and the returned
flow carries the recorded callback path and client id. -/
theorem browserURL_ok {flow flow1 : Flow} {baseURL s : ByteStr}
    {params : BrowserParams} {ru : GoURL}
    (hparse : parseURL params.RedirectURI = some ru)
    (hurl : BrowserURL flow baseURL params = .ok (s, flow1)) :
    s = baseURL ++ 63 :: Values.encode (browserQuery params.ClientID
        (GoURL.render { Scheme := ru.Scheme
                        Host := hostnameOf ru.Host ++ 58 :: bsOfNat flow.server.port
                        Path := ru.Path })
        params.Scopes flow.state params.LoginHandle params.AllowSignup) ∧
    flow1 = { flow with
        server := { flow.server with CallbackPath := ru.Path },
        clientID := params.ClientID } := by
  unfold BrowserURL at hurl
  rw [hparse] at hurl
  dsimp only at hurl
  injection hurl with hurl
  exact ⟨(congrArg Prod.fst hurl).symm, (congrArg Prod.snd hurl).symm⟩

/-- The rewritten redirect URI rendered by `BrowserURL` is well-formed
whenever the original redirect URI string is. -/
theorem wfBytes_render_rewrite {s : ByteStr} {u : GoURL} (hs : WfBytes s)
    (hp : parseURL s = some u) (port : Nat) :
    WfBytes (GoURL.render { Scheme := u.Scheme
                            Host := hostnameOf u.Host ++ 58 :: bsOfNat port
                            Path := u.Path }) := by
  obtain ⟨hsch, hhost, hpath⟩ := parseURL_mem hp
  exact wfBytes_append
    (wfBytes_append
      (wfBytes_append (fun b hb => hs b (hsch b hb)) (by decide))
      (wfBytes_append (fun b hb => hs b (hhost b (mem_hostnameOf hb)))
        (wfBytes_cons (by omega) (wfBytes_bsOfNatCore _ _))))
    (fun b hb => hs b (hpath b hb))

/-- The `state` parameter set by `BrowserURL` is always the flow's nonce. -/
theorem browserQuery_state_getList (cid r st lg : ByteStr) (scopes : List ByteStr)
    (alw : Bool) :
    (browserQuery cid r scopes st lg alw).getList (bs "state") = [st] := by
  by_cases hl : lg = []
  · subst hl
    cases alw <;> rfl
  · cases alw <;> simp only [browserQuery, if_pos hl] <;> rfl

/-- Concrete query string produced by `BrowserURL flow0 base0 params0`. -/
def qs0 : ByteStr :=
  bs "allow_signup=false&client_id=id&redirect_uri=http%3A%2F%2F127.0.0.1%3A8080%2Fcb&scope=repo&state=xy"

/-- C2 counterexample: for `redirectURI = http://127.0.0.1/cb` and port 8080,
the `redirect_uri` parameter decodes to `http://127.0.0.1:8080/cb` — the
original hostname with the port set — which is not
`http://localhost:8080/cb` as the claim requires. -/
theorem claim_C2_counterexample :
    (∃ flow1, BrowserURL flow0 base0 params0 = .ok (base0 ++ 63 :: qs0, flow1)) ∧
    (parseQuery qs0).1.getList (bs "redirect_uri") = [bs "http://127.0.0.1:8080/cb"] ∧
    bs "http://127.0.0.1:8080/cb" ≠ bs "http://localhost:8080/cb" :=
  ⟨⟨_, rfl⟩, by decide, by decide⟩

/-- C2 amended: `BrowserURL` keeps the redirect URI's original hostname and
sets only the port (`Hostname():port`); the `redirect_uri` parameter decodes
to `scheme://<original-hostname>:<port><path>`, `localhost` appearing only
when the original host was `localhost`. -/
theorem claim_C2_amended (flow flow1 : Flow) (baseURL s : ByteStr)
    (params : BrowserParams) (ru : GoURL)
    (hwfURI : WfBytes params.RedirectURI) (hwfcid : WfBytes params.ClientID)
    (hwfsc : ∀ sc ∈ params.Scopes, WfBytes sc) (hwfst : WfBytes flow.state)
    (hwflg : WfBytes params.LoginHandle)
    (hparse : parseURL params.RedirectURI = some ru)
    (hurl : BrowserURL flow baseURL params = .ok (s, flow1)) :
    ∃ qs, s = baseURL ++ 63 :: qs ∧
      (parseQuery qs).1.getList (bs "redirect_uri") =
        [GoURL.render { Scheme := ru.Scheme
                        Host := hostnameOf ru.Host ++ 58 :: bsOfNat flow.server.port
                        Path := ru.Path }] := by
  obtain ⟨hs, _⟩ := browserURL_ok hparse hurl
  refine ⟨_, hs, ?_⟩
  exact (parseQuery_browserQuery_encode params.ClientID
    (GoURL.render { Scheme := ru.Scheme
                    Host := hostnameOf ru.Host ++ 58 :: bsOfNat flow.server.port
                    Path := ru.Path })
    flow.state params.LoginHandle params.Scopes params.AllowSignup
    hwfcid (wfBytes_render_rewrite hwfURI hparse flow.server.port) hwfst hwflg
    (wfBytes_joinSep (by omega) hwfsc)).2.1

/-- Witness for C2 amended at the concrete fixtures. -/
theorem claim_C2_amended_witness :
    ∃ s flow1, BrowserURL flow0 base0 params0 = .ok (s, flow1) ∧
      ∃ qs, s = base0 ++ 63 :: qs ∧
        (parseQuery qs).1.getList (bs "redirect_uri") =
          [GoURL.render { Scheme := bs "http"
                          Host := hostnameOf (bs "127.0.0.1") ++ 58 :: bsOfNat flow0.server.port
                          Path := bs "/cb" }] :=
  ⟨_, _, rfl, claim_C2_amended flow0 _ base0 _ params0
    { Scheme := bs "http", Host := bs "127.0.0.1", Path := bs "/cb" }
    (by decide) (by decide) (by decide) (by decide) (by decide) rfl rfl⟩

/-- C3 counterexample: with `AllowSignup = false`, the query produced by
`BrowserURL` starts with `allow_signup=false`, not with `client_id` as the
claimed fixed order (`client_id`, `redirect_uri`, `scope`, `state`, `login`,
`allow_signup`) would demand. -/
theorem claim_C3_counterexample :
    (∃ flow1, BrowserURL flow0 base0 params0 = .ok (base0 ++ 63 :: qs0, flow1)) ∧
    qs0 ≠ joinSep 38
      [encodePair (bs "client_id", bs "id"),
       encodePair (bs "redirect_uri", bs "http://127.0.0.1:8080/cb"),
       encodePair (bs "scope", bs "repo"),
       encodePair (bs "state", bs "xy"),
       encodePair (bs "allow_signup", bs "false")] :=
  ⟨⟨_, rfl⟩, by decide⟩

/-- C3 amended: `q.Encode()` serializes the parameters in ascending
lexicographic key order — `allow_signup` (only when `AllowSignup` is false),
`client_id`, `login` (only when the handle is nonempty), `redirect_uri`,
`scope`, `state` — with the same presence conditions as the claim. -/
theorem claim_C3_amended (flow flow1 : Flow) (baseURL s : ByteStr)
    (params : BrowserParams) (ru : GoURL)
    (hparse : parseURL params.RedirectURI = some ru)
    (hurl : BrowserURL flow baseURL params = .ok (s, flow1)) :
    s = baseURL ++ 63 :: joinSep 38 (
      (if params.AllowSignup then [] else [encodePair (bs "allow_signup", bs "false")]) ++
      [encodePair (bs "client_id", params.ClientID)] ++
      (if params.LoginHandle = [] then []
       else [encodePair (bs "login", params.LoginHandle)]) ++
      [encodePair (bs "redirect_uri",
        GoURL.render { Scheme := ru.Scheme
                       Host := hostnameOf ru.Host ++ 58 :: bsOfNat flow.server.port
                       Path := ru.Path })] ++
      [encodePair (bs "scope", joinSep 32 params.Scopes)] ++
      [encodePair (bs "state", flow.state)]) := by
  obtain ⟨hs, _⟩ := browserURL_ok hparse hurl
  rw [hs]
  refine congrArg (fun t => baseURL ++ 63 :: t) ?_
  by_cases hl : params.LoginHandle = []
  · rw [hl]
    cases hAS : params.AllowSignup <;> rfl
  · cases hAS : params.AllowSignup <;>
      simp only [browserQuery, if_pos hl, if_neg hl] <;> rfl

/-- Witness for C3 amended at the concrete fixtures. -/
theorem claim_C3_amended_witness :
    ∃ s flow1, BrowserURL flow0 base0 params0 = .ok (s, flow1) ∧
      s = base0 ++ 63 :: joinSep 38 (
        [encodePair (bs "allow_signup", bs "false")] ++
        [encodePair (bs "client_id", params0.ClientID)] ++
        [] ++
        [encodePair (bs "redirect_uri",
          GoURL.render { Scheme := bs "http"
                         Host := hostnameOf (bs "127.0.0.1") ++ 58 :: bsOfNat flow0.server.port
                         Path := bs "/cb" })] ++
        [encodePair (bs "scope", joinSep 32 params0.Scopes)] ++
        [encodePair (bs "state", flow0.state)]) :=
  ⟨_, _, rfl, claim_C3_amended flow0 _ base0 _ params0
    { Scheme := bs "http", Host := bs "127.0.0.1", Path := bs "/cb" } rfl rfl⟩

/-- C6: parsing the query of the returned URL reproduces the supplied
`client_id`, the space-joined scopes in their original order, and the flow's
state, and `allow_signup` is present (with value `"false"`) exactly when
`AllowSignup` is false. -/
theorem claim_C6 (flow flow1 : Flow) (baseURL s : ByteStr)
    (params : BrowserParams) (ru : GoURL)
    (hwfURI : WfBytes params.RedirectURI) (hwfcid : WfBytes params.ClientID)
    (hwfsc : ∀ sc ∈ params.Scopes, WfBytes sc) (hwfst : WfBytes flow.state)
    (hwflg : WfBytes params.LoginHandle)
    (hparse : parseURL params.RedirectURI = some ru)
    (hurl : BrowserURL flow baseURL params = .ok (s, flow1)) :
    ∃ qs, s = baseURL ++ 63 :: qs ∧
      (parseQuery qs).1.getList (bs "client_id") = [params.ClientID] ∧
      (parseQuery qs).1.getList (bs "scope") = [joinSep 32 params.Scopes] ∧
      (parseQuery qs).1.getList (bs "state") = [flow.state] ∧
      (parseQuery qs).1.getList (bs "allow_signup") =
        (if params.AllowSignup then [] else [bs "false"]) ∧
      (parseQuery qs).1.containsKey (bs "allow_signup") = !params.AllowSignup := by
  obtain ⟨hs, _⟩ := browserURL_ok hparse hurl
  refine ⟨_, hs, ?_, ?_, ?_, ?_, ?_⟩ <;>
  · have h := parseQuery_browserQuery_encode params.ClientID
      (GoURL.render { Scheme := ru.Scheme
                      Host := hostnameOf ru.Host ++ 58 :: bsOfNat flow.server.port
                      Path := ru.Path })
      flow.state params.LoginHandle params.Scopes params.AllowSignup
      hwfcid (wfBytes_render_rewrite hwfURI hparse flow.server.port) hwfst hwflg
      (wfBytes_joinSep (by omega) hwfsc)
    first
      | exact h.1
      | exact h.2.2.1
      | exact h.2.2.2.1
      | exact h.2.2.2.2.2.1
      | exact h.2.2.2.2.2.2.1

/-- Witness for C6 at the concrete fixtures. -/
theorem claim_C6_witness :
    ∃ s flow1, BrowserURL flow0 base0 params0 = .ok (s, flow1) ∧
      ∃ qs, s = base0 ++ 63 :: qs ∧
        (parseQuery qs).1.getList (bs "client_id") = [params0.ClientID] ∧
        (parseQuery qs).1.getList (bs "scope") = [joinSep 32 params0.Scopes] ∧
        (parseQuery qs).1.getList (bs "state") = [flow0.state] ∧
        (parseQuery qs).1.getList (bs "allow_signup") =
          (if params0.AllowSignup then [] else [bs "false"]) ∧
        (parseQuery qs).1.containsKey (bs "allow_signup") = !params0.AllowSignup :=
  ⟨_, _, rfl, claim_C6 flow0 _ base0 _ params0
    { Scheme := bs "http", Host := bs "127.0.0.1", Path := bs "/cb" }
    (by decide) (by decide) (by decide) (by decide) (by decide) rfl rfl⟩

/-- C8: the state nonce is fixed at construction (20 hex characters for the
10 random bytes of `randomString(20)`), is never changed by `BrowserURL`,
`StartServer`, or the token-exchange calls, and the very same `flow.state`
value is the one `BrowserURL` embeds under `state` in the authorization URL,
the one the exchange compares the callback against, and the one it posts. -/
theorem claim_C8 (srv : LocalServer) (bytes : List Nat) (flow flow1 : Flow)
    (baseURL s : ByteStr) (params : BrowserParams) (w : ByteStr → ByteStr)
    (serveResult : Except GoError Unit) (tokenURL clientSecret : ByteStr)
    (pp : Option Values) (code : CodeResponse)
    (hlen : bytes.length = 10)
    (hinit : InitFlow (.ok srv) (.ok bytes) = .ok flow)
    (hurl : BrowserURL flow baseURL params = .ok (s, flow1)) :
    flow.state.length = 20 ∧
    flow1.state = flow.state ∧
    (StartServer flow1 w serveResult).1.state = flow.state ∧
    (∀ cid r scopes lg alw,
      (browserQuery cid r scopes flow.state lg alw).getList (bs "state") =
        [flow.state]) ∧
    (code.State = flow.state →
      ∃ req, AccessTokenWithParams flow1 tokenURL clientSecret pp (.ok code) =
          .ok req ∧
        req.body.getList (bs "state") = [flow.state]) ∧
    (code.State ≠ flow.state →
      AccessTokenWithParams flow1 tokenURL clientSecret pp (.ok code) =
        Except.error .stateMismatch) := by
  have hflow : ({ server := srv, clientID := [], state := hexEncode bytes } : Flow) =
      flow := Except.ok.inj hinit
  unfold BrowserURL at hurl
  cases hp : parseURL params.RedirectURI with
  | none =>
    rw [hp] at hurl
    exact absurd hurl (by simp)
  | some ru =>
    rw [hp] at hurl
    dsimp only at hurl
    injection hurl with hurl
    have hflow1 : flow1 = { flow with
        server := { flow.server with CallbackPath := ru.Path },
        clientID := params.ClientID } := (congrArg Prod.snd hurl).symm
    have hstate1 : flow1.state = flow.state := by rw [hflow1]
    refine ⟨?_, hstate1, ?_, ?_, ?_, ?_⟩
    · rw [← hflow]
      show (hexEncode bytes).length = 20
      rw [hexEncode_length, hlen]
    · rw [show (StartServer flow1 w serveResult).1.state = flow1.state from rfl,
        hstate1]
    · intro cid r scopes lg alw
      exact browserQuery_state_getList cid r flow.state lg scopes alw
    · intro hc
      have hc1 : code.State = flow1.state := by rw [hstate1]; exact hc
      have hres : AccessTokenWithParams flow1 tokenURL clientSecret pp (.ok code) =
          .ok { url := tokenURL,
                body := Values.store (bs "state") [flow1.state]
                  (Values.store (bs "code") [code.Code]
                    (Values.store (bs "client_secret") [clientSecret]
                      (Values.store (bs "client_id") [flow1.clientID]
                        (pp.getD [])))) } := by
        simp [AccessTokenWithParams, hc1]
      refine ⟨_, hres, ?_⟩
      rw [getList_store_self, hstate1]
    · intro hc
      have hc1 : code.State ≠ flow1.state := by rw [hstate1]; exact hc
      simp [AccessTokenWithParams, hc1]

/-- Witness for C8 at the concrete fixtures (ten zero bytes). -/
theorem claim_C8_witness :
    (List.replicate 10 0).length = 10 ∧
    ∃ flow flow1 s,
      InitFlow (.ok srv0) (.ok (List.replicate 10 0)) = .ok flow ∧
      BrowserURL flow base0 params0 = .ok (s, flow1) ∧
      flow.state.length = 20 ∧
      flow1.state = flow.state := by
  have h := claim_C8 srv0 (List.replicate 10 0) _ _ base0 _ params0
    (fun x => x) (Except.ok ()) (bs "https://t") (bs "sec") none
    { Code := [], State := [], ErrorParam := none } (by decide) rfl rfl
  exact ⟨by decide, _, _, _, rfl, rfl, h.1, h.2.1⟩

end Webapp
